import Mathlib

/-
Verification of the trackman core (src/utils/spinner.go): the process runner
(Spinner), its command parsing (NewSpinner), the dependency-aware workflow
scheduler (Workflow.Run), the admission gate, and load-time dependency
validation (LoadWorkflowFromBytes).
-/

/-! ## Process runner (Spinner.Run) -/

/-- Event kinds pushed by the runner, mirroring the EventRun* constants. -/
inductive EventKind
  | runRequested
  | runStarted
  | runError
  | runFail
  | runWaitError
  | runTimeout
  | runSuccess
deriving DecidableEq

/-- An emitted event: kind plus optional numeric payload (the wait status
pushed with EventRunFail). -/
structure Event where
  kind : EventKind
  payload : Option Int
deriving DecidableEq

/-- Outcome of cmd.Start(): nil error or a launch error. -/
inductive StartOutcome
  | startOk
  | startFailed
deriving DecidableEq

/-- Outcome of cmd.Wait():
nil; an exec.ExitError whose Sys() may or may not be a syscall.WaitStatus
(the type assertion at spinner.go line 73), carrying the status value; or a
non-ExitError failure of the wait itself, tagged with an abstract identity so
the embedding can tell distinct wait errors apart. -/
inductive WaitOutcome
  | waitOk
  | exitStatus (sysIsWaitStatus : Bool) (status : Int)
  | waitFailed (eid : Nat)
deriving DecidableEq

/-- Whether the wait outcome is the non-ExitError wait-failure case. -/
def WaitOutcome.isWaitFailed : WaitOutcome → Bool
  | .waitFailed _ => true
  | _ => false

/-- The error value Spinner.Run can return.  The wait-error branch executes
return exitErr, where exitErr is the zero value left by the failed
assertion err.(*exec.ExitError): a typed-nil pointer inside a non-nil error
interface, distinct from the original wait error (whose identity is
dropped).  The timeout branch returns ctx.Err() = DeadlineExceeded. -/
inductive RunReturn
  | startErr
  | typedNilExitErr
  | deadlineExceededErr
deriving DecidableEq

/-- The observations of one Spinner.Run execution: the result of
cmd.Start(), the result of cmd.Wait(), and the value of
ctx.Err() == context.DeadlineExceeded at the check on line 84. -/
structure RunInput where
  start : StartOutcome
  wait : WaitOutcome
  deadlineAtCheck : Bool
deriving DecidableEq

/-- The tail of Spinner.Run after the Wait handling (spinner.go lines 84-92):
check ctx.Err() for DeadlineExceeded, push RunTimeout and return the deadline
error, else push RunSuccess and return nil. -/
def deadlineCheckTail (evs : List Event) (deadlineAtCheck : Bool) :
    List Event × Option RunReturn :=
  if deadlineAtCheck then
    (evs ++ [Event.mk .runTimeout none], some .deadlineExceededErr)
  else
    (evs ++ [Event.mk .runSuccess none], none)

/-- Shallow embedding of Spinner.Run (spinner.go lines 52-93): returns the
events pushed, in order, and the returned error value.  Note that the
exec.ExitError branch (lines 71-75) pushes RunFail and then falls through to
the deadline check, and that the wait-error branch returns the typed-nil
result of the failed type assertion. -/
def spinnerRun (i : RunInput) : List Event × Option RunReturn :=
  let evs := [Event.mk .runRequested none]
  match i.start with
  | .startFailed => (evs ++ [Event.mk .runError none], some .startErr)
  | .startOk =>
    let evs := evs ++ [Event.mk .runStarted none]
    match i.wait with
    | .waitFailed _ => (evs ++ [Event.mk .runWaitError none], some .typedNilExitErr)
    | .exitStatus true st =>
        deadlineCheckTail (evs ++ [Event.mk .runFail (some st)]) i.deadlineAtCheck
    | _ => deadlineCheckTail evs i.deadlineAtCheck

/-- The kinds of the events one run pushes, in order. -/
def runEventsOf (i : RunInput) : List EventKind :=
  (spinnerRun i).1.map Event.kind

/-- The error value one run returns. -/
def runRetOf (i : RunInput) : Option RunReturn :=
  (spinnerRun i).2

/-- The four terminal event kinds of the claimed per-run event grammar. -/
def isTerminalKind : EventKind → Bool
  | .runFail => true
  | .runWaitError => true
  | .runTimeout => true
  | .runSuccess => true
  | _ => false

/-! ## Command parsing (NewSpinner) -/

/-- Go strings.Split(s, sep) for the one-character separator, over the
command string as a list of characters: splits around every space character,
keeping empty tokens; the empty string yields one empty token. -/
def goSplitSpace : List Char → List (List Char)
  | [] => [[]]
  | c :: rest =>
    if c = ' ' then [] :: goSplitSpace rest
    else
      match goSplitSpace rest with
      | [] => [[c]]
      | t :: ts => (c :: t) :: ts

/-- Joining tokens back with a single space: the left inverse of the split. -/
def joinSpace : List (List Char) → List Char
  | [] => []
  | [t] => t
  | t :: ts => t ++ ' ' :: joinSpace ts

/-- The fields of a constructed Spinner relevant here: cmd and args. -/
structure SpinnerData where
  cmd : List Char
  args : List (List Char)
deriving DecidableEq

/-- The three ways NewSpinner can end: panic (nil sink / nil notification
manager), the "bad command" error, or a constructed Spinner. -/
inductive NewSpinnerResult
  | panicked (msg : String)
  | failed (msg : String)
  | ok (s : SpinnerData)
deriving DecidableEq

/-- Shallow embedding of NewSpinner (spinner.go lines 29-49): panic checks on
the options, parts := strings.Split(command, " "), the len(parts) < 1 guard,
and the Spinner with cmd = parts[0], args = parts[1:]. -/
def newSpinner (sinkPresent nmPresent : Bool) (command : List Char) :
    NewSpinnerResult :=
  if !sinkPresent then .panicked "no sink"
  else if !nmPresent then .panicked "no notification manager"
  else
    let parts := goSplitSpace command
    if parts.length < 1 then .failed "bad command"
    else .ok ⟨parts.headD [], parts.tail⟩

theorem goSplitSpace_ne_nil (l : List Char) : goSplitSpace l ≠ [] := by
  cases l with
  | nil => simp [goSplitSpace]
  | cons c rest =>
    by_cases h : c = ' '
    · simp [goSplitSpace, h]
    · cases hr : goSplitSpace rest <;> simp [goSplitSpace, h, hr]

theorem joinSpace_goSplitSpace (l : List Char) :
    joinSpace (goSplitSpace l) = l := by
  induction l with
  | nil => rfl
  | cons c rest ih =>
    by_cases h : c = ' '
    · subst h
      cases hr : goSplitSpace rest with
      | nil => exact absurd hr (goSplitSpace_ne_nil rest)
      | cons t ts =>
        rw [hr] at ih
        simp [goSplitSpace, hr, joinSpace, ih]
    · cases hr : goSplitSpace rest with
      | nil => exact absurd hr (goSplitSpace_ne_nil rest)
      | cons t ts =>
        rw [hr] at ih
        cases ts with
        | nil => simpa [goSplitSpace, h, hr, joinSpace] using ih
        | cons u us => simpa [goSplitSpace, h, hr, joinSpace] using ih

theorem goSplitSpace_no_space (l : List Char) :
    ∀ t ∈ goSplitSpace l, ' ' ∉ t := by
  induction l with
  | nil =>
    intro t ht
    simp [goSplitSpace] at ht
    simp [ht]
  | cons c rest ih =>
    by_cases h : c = ' '
    · intro t ht
      simp [goSplitSpace, h] at ht
      rcases ht with ht | ht
      · simp [ht]
      · exact ih t ht
    · cases hr : goSplitSpace rest with
      | nil => exact absurd hr (goSplitSpace_ne_nil rest)
      | cons u us =>
        intro t ht
        simp [goSplitSpace, h, hr] at ht
        rcases ht with ht | ht
        · subst ht
          intro hmem
          rcases List.mem_cons.mp hmem with hc | hc
          · exact h hc.symm
          · exact ih u (by simp [hr]) hc
        · exact ih t (by simp [hr, ht])

/-! ## Dependency-aware scheduler loop (Workflow.Run, spinner.go lines 184-233) -/

/-- Possible outcomes of one dispatched step's execution, as classified by
the runner contract. -/
inductive StepOutcome
  | success
  | nonZeroExit
  | timeoutOut
  | waitErrorOut
  | launchErrorOut
deriving DecidableEq

/-- The branch taken by one iteration of the selection loop, in the order
the source checks them: shouldStop, allDone, nextToRun returning nil
(continue), gatekeeper.Acquire failing, or a step being dispatched. -/
inductive LoopObs
  | stopSeen
  | doneSeen
  | noStep
  | acqCancel
  | dispatched (o : StepOutcome)
deriving DecidableEq

/-- How Workflow.Run exited: the stop-flag return inside the loop, the
allDone break followed by the join, or the Acquire-error return. -/
inductive RunExitKind
  | stoppedExit
  | finishedExit
  | acqErrorExit
deriving DecidableEq

/-- Error values that could conceivably be returned by Workflow.Run: the
cancellation error from gatekeeper.Acquire, or a step execution error of a
given outcome class (the latter exists in the model so that the theorems can
state it is never returned). -/
inductive WorkflowErr
  | acquireCancel
  | stepErr (o : StepOutcome)
deriving DecidableEq

/-- The observable result of one Workflow.Run execution: how it exited, how
many steps had been dispatched, whether joiner.Wait() executed before the
return, and the returned error value. -/
structure LoopResult where
  exitKind : RunExitKind
  dispatchedCount : Nat
  waitedForTasks : Bool
  retErr : Option WorkflowErr
deriving DecidableEq

/-- Shallow embedding of the selection loop of Workflow.Run (spinner.go
lines 195-232), driven by the branch each iteration takes.  The stop-flag
branch executes return nil from inside the loop, and the Acquire-error
branch executes return err, both before joiner.Wait() on line 230; only the
allDone break reaches joiner.Wait().  none models a trace that never exits
the loop. -/
def workflowRunLoop : List LoopObs → Nat → Option LoopResult
  | [], _ => none
  | o :: rest, d =>
    match o with
    | .stopSeen => some ⟨.stoppedExit, d, false, none⟩
    | .doneSeen => some ⟨.finishedExit, d, true, none⟩
    | .noStep => workflowRunLoop rest d
    | .acqCancel => some ⟨.acqErrorExit, d, false, some .acquireCancel⟩
    | .dispatched _ => workflowRunLoop rest (d + 1)

/-- What a dispatched step task does besides running the step. -/
structure TaskEffect where
  raisedStop : Bool
  releasedUnit : Bool
  propagatedErr : Option WorkflowErr
deriving DecidableEq

/-- Modelled from the spec: Step.Run is not under src (only Workflow.Run,
its caller, is); per spec section 4.4 item 6 and section 7, a launch error,
wait error, non-zero exit or timeout is workflow-fatal, so the dispatched
task sees a non-nil error from the step and raises the stop flag. -/
def stepRunFailed : StepOutcome → Bool
  | .success => false
  | _ => true

/-- The dispatched goroutine body (spinner.go lines 213-227): on a non-nil
step error it logs and raises the stop flag, then releases its admission
unit; it has no channel by which to propagate the step's error into
Workflow.Run's return value. -/
def stepTask (o : StepOutcome) : TaskEffect :=
  { raisedStop := stepRunFailed o
    releasedUnit := true
    propagatedErr := none }

theorem workflowRunLoop_ret (t : List LoopObs) :
    ∀ n r, workflowRunLoop t n = some r →
      (r.retErr = none ∨ r.retErr = some WorkflowErr.acquireCancel) ∧
      (r.exitKind = RunExitKind.stoppedExit → r.retErr = none) := by
  induction t with
  | nil => intro n r h; simp [workflowRunLoop] at h
  | cons o rest ih =>
    intro n r h
    cases o with
    | stopSeen =>
      simp [workflowRunLoop] at h
      subst h
      exact ⟨Or.inl rfl, fun _ => rfl⟩
    | doneSeen =>
      simp [workflowRunLoop] at h
      subst h
      exact ⟨Or.inl rfl, fun _ => rfl⟩
    | noStep => exact ih n r h
    | acqCancel =>
      simp [workflowRunLoop] at h
      subst h
      exact ⟨Or.inr rfl, fun hk => by simp at hk⟩
    | dispatched o => exact ih (n + 1) r h

/-! ## Admission gate and Running-status bound -/

/-- The lifecycle phases of one dispatched step task: admission unit
acquired with the step Pending, step Running, step in a terminal status but
unit not yet released, and unit released. -/
inductive TaskPhase
  | claimedP
  | runningP
  | finishedP
  | releasedP
deriving DecidableEq

/-- Whether a task in this phase still holds its admission unit: the unit is
acquired before the goroutine is dispatched (spinner.go line 208) and
released at the end of the goroutine (line 225). -/
def holdsUnit : TaskPhase → Bool
  | .releasedP => false
  | _ => true

/-- Whether a task in this phase has its step in Running status. -/
def isRunningPhase : TaskPhase → Bool
  | .runningP => true
  | _ => false

/-- Number of admission units currently held. -/
def unitsHeld (ts : List TaskPhase) : Nat := ts.countP holdsUnit

/-- Number of steps currently in Running status. -/
def runningSteps (ts : List TaskPhase) : Nat := ts.countP isRunningPhase

/-- One transition of the scheduler-with-gate system with capacity N: a new
step is admitted only when capacity is available (the contract of
semaphore.Weighted.Acquire, created with capacity N on spinner.go line 152);
a claimed task starts running; a running task finishes; a finished task
releases its unit. -/
inductive GateStep (N : Nat) : List TaskPhase → List TaskPhase → Prop
  | enter (ts : List TaskPhase) (h : unitsHeld ts < N) :
      GateStep N ts (TaskPhase.claimedP :: ts)
  | startRun (l r : List TaskPhase) :
      GateStep N (l ++ TaskPhase.claimedP :: r) (l ++ TaskPhase.runningP :: r)
  | complete (l r : List TaskPhase) :
      GateStep N (l ++ TaskPhase.runningP :: r) (l ++ TaskPhase.finishedP :: r)
  | releaseUnit (l r : List TaskPhase) :
      GateStep N (l ++ TaskPhase.finishedP :: r) (l ++ TaskPhase.releasedP :: r)

/-- States reachable during one Workflow.Run with capacity N, starting with
no tasks dispatched. -/
inductive GateReach (N : Nat) : List TaskPhase → Prop
  | start : GateReach N []
  | next {s t : List TaskPhase} :
      GateReach N s → GateStep N s t → GateReach N t

theorem gateStep_unitsHeld_le {N : Nat} {s t : List TaskPhase}
    (hstep : GateStep N s t) (hle : unitsHeld s ≤ N) : unitsHeld t ≤ N := by
  cases hstep with
  | enter _ hlt =>
    simp [unitsHeld, List.countP_cons, holdsUnit] at hle hlt ⊢
    omega
  | startRun l r =>
    have he : unitsHeld (l ++ TaskPhase.runningP :: r) =
        unitsHeld (l ++ TaskPhase.claimedP :: r) := by
      simp [unitsHeld, List.countP_append, List.countP_cons, holdsUnit]
    omega
  | complete l r =>
    have he : unitsHeld (l ++ TaskPhase.finishedP :: r) =
        unitsHeld (l ++ TaskPhase.runningP :: r) := by
      simp [unitsHeld, List.countP_append, List.countP_cons, holdsUnit]
    omega
  | releaseUnit l r =>
    have he : unitsHeld (l ++ TaskPhase.releasedP :: r) ≤
        unitsHeld (l ++ TaskPhase.finishedP :: r) := by
      simp [unitsHeld, List.countP_append, List.countP_cons, holdsUnit]
    omega

theorem gateReach_unitsHeld_le {N : Nat} {ts : List TaskPhase}
    (h : GateReach N ts) : unitsHeld ts ≤ N := by
  induction h with
  | start => simp [unitsHeld]
  | next _ hstep ih => exact gateStep_unitsHeld_le hstep ih

theorem runningSteps_le_unitsHeld (ts : List TaskPhase) :
    runningSteps ts ≤ unitsHeld ts := by
  induction ts with
  | nil => simp [runningSteps, unitsHeld]
  | cons p rest ih =>
    cases p <;>
      simp [runningSteps, unitsHeld, List.countP_cons, isRunningPhase,
        holdsUnit] at ih ⊢ <;>
      omega

/-! ## Load-time dependency validation (LoadWorkflowFromBytes, lines 157-168) -/

/-- A step record of the workflow document as far as dependency validation
is concerned: its name and its depends_on list. -/
structure StepDoc where
  name : String
  dependsOn : List String
deriving DecidableEq

/-- Shallow embedding of Workflow.findStepByName (spinner.go lines 264-272):
linear scan returning the first step with the given name. -/
def findStepByName (steps : List StepDoc) (n : String) : Option StepDoc :=
  match steps with
  | [] => none
  | s :: rest => if s.name = n then some s else findStepByName rest n

/-- The error message built on spinner.go line 163. -/
def depErrorMsg (stepName missing : String) : String :=
  "invalid step name in runs_after for step " ++ stepName ++ " (" ++ missing ++ ")"

/-- The inner loop of the validation (lines 160-167) for one step: resolve
each depends_on entry in order, failing on the first entry that
findStepByName cannot resolve, else collect the resolved steps in order. -/
def resolveStepDeps (all : List StepDoc) (stepName : String) :
    List String → Except String (List StepDoc)
  | [] => .ok []
  | d :: ds =>
    match findStepByName all d with
    | none => .error (depErrorMsg stepName d)
    | some prior =>
      match resolveStepDeps all stepName ds with
      | .error e => .error e
      | .ok rest => .ok (prior :: rest)

/-- The outer loop of the validation (lines 158-168): process the steps in
document order, returning the first resolution error, else the resolved
dependency lists of all steps. -/
def resolveAllDeps (all : List StepDoc) :
    List StepDoc → Except String (List (List StepDoc))
  | [] => .ok []
  | s :: rest =>
    match resolveStepDeps all s.name s.dependsOn with
    | .error e => .error e
    | .ok ds =>
      match resolveAllDeps all rest with
      | .error e => .error e
      | .ok others => .ok (ds :: others)

theorem resolveStepDeps_error_inv (all : List StepDoc) (stepName : String)
    (deps : List String) :
    ∀ e, resolveStepDeps all stepName deps = .error e →
    ∃ d, d ∈ deps ∧ findStepByName all d = none ∧ e = depErrorMsg stepName d := by
  induction deps with
  | nil => intro e h; simp [resolveStepDeps] at h
  | cons d ds ih =>
    intro e h
    cases hf : findStepByName all d with
    | none =>
      refine ⟨d, by simp, hf, ?_⟩
      simp [resolveStepDeps, hf] at h
      exact h.symm
    | some prior =>
      cases hrec : resolveStepDeps all stepName ds with
      | error e2 =>
        obtain ⟨d2, hd2, hfd2, he2⟩ := ih e2 hrec
        simp [resolveStepDeps, hf, hrec] at h
        exact ⟨d2, by simp [hd2], hfd2, h ▸ he2⟩
      | ok rest => simp [resolveStepDeps, hf, hrec] at h

theorem resolveStepDeps_ok_of (all : List StepDoc) (stepName : String)
    (deps : List String)
    (h : ∀ d ∈ deps, (findStepByName all d).isSome = true) :
    ∃ r, resolveStepDeps all stepName deps = .ok r := by
  induction deps with
  | nil => exact ⟨[], rfl⟩
  | cons d ds ih =>
    cases hf : findStepByName all d with
    | none =>
      have := h d (by simp)
      simp [hf] at this
    | some prior =>
      obtain ⟨r, hr⟩ := ih (fun d2 hd2 => h d2 (by simp [hd2]))
      exact ⟨prior :: r, by simp [resolveStepDeps, hf, hr]⟩

theorem resolveStepDeps_ok_inv (all : List StepDoc) (stepName : String)
    (deps : List String) (r : List StepDoc)
    (h : resolveStepDeps all stepName deps = .ok r) :
    ∀ d ∈ deps, (findStepByName all d).isSome = true := by
  induction deps generalizing r with
  | nil => simp
  | cons d ds ih =>
    intro d2 hd2
    cases hf : findStepByName all d with
    | none => simp [resolveStepDeps, hf] at h
    | some prior =>
      cases hrec : resolveStepDeps all stepName ds with
      | error e => simp [resolveStepDeps, hf, hrec] at h
      | ok rest =>
        rcases List.mem_cons.mp hd2 with hd | hd
        · subst hd; simp [hf]
        · exact ih rest hrec d2 hd

theorem resolveAllDeps_error_of (all : List StepDoc)
    (stepsToCheck : List StepDoc) (s : StepDoc) (d : String)
    (hs : s ∈ stepsToCheck) (hd : d ∈ s.dependsOn)
    (hf : findStepByName all d = none) :
    ∃ s2 d2, s2 ∈ stepsToCheck ∧ d2 ∈ s2.dependsOn ∧
      findStepByName all d2 = none ∧
      resolveAllDeps all stepsToCheck = .error (depErrorMsg s2.name d2) := by
  induction stepsToCheck with
  | nil => simp at hs
  | cons s0 rest ih =>
    cases hres : resolveStepDeps all s0.name s0.dependsOn with
    | error e =>
      obtain ⟨d2, hd2, hfd2, he⟩ := resolveStepDeps_error_inv _ _ _ _ hres
      exact ⟨s0, d2, by simp, hd2, hfd2,
        by simp [resolveAllDeps, hres, he]⟩
    | ok ds =>
      rcases List.mem_cons.mp hs with hseq | hsrest
      · subst hseq
        have := resolveStepDeps_ok_inv _ _ _ _ hres d hd
        simp [hf] at this
      · obtain ⟨s2, d2, hs2, hd2, hfd2, herr⟩ := ih hsrest
        exact ⟨s2, d2, by simp [hs2], hd2, hfd2,
          by simp [resolveAllDeps, hres, herr]⟩

theorem resolveAllDeps_ok_of (all : List StepDoc)
    (stepsToCheck : List StepDoc)
    (h : ∀ s ∈ stepsToCheck, ∀ d ∈ s.dependsOn,
      (findStepByName all d).isSome = true) :
    ∃ r, resolveAllDeps all stepsToCheck = .ok r := by
  induction stepsToCheck with
  | nil => exact ⟨[], rfl⟩
  | cons s0 rest ih =>
    obtain ⟨ds, hds⟩ := resolveStepDeps_ok_of all s0.name s0.dependsOn
      (fun d hd => h s0 (by simp) d hd)
    obtain ⟨r, hr⟩ := ih (fun s hs d hd => h s (by simp [hs]) d hd)
    exact ⟨ds :: r, by simp [resolveAllDeps, hds, hr]⟩

/-! ## Claim theorems -/

/-- Claim C1 (code evidence): the claimed per-run event grammar — a prefix
of RunRequested, RunStarted, one terminal — is violated: when the launch
succeeds, the process exits with status 1 (decodable wait status) and no
deadline has fired, Spinner.Run pushes RunRequested, RunStarted, RunFail and
then also RunSuccess: two terminal events in one run, because the RunFail
branch falls through to the success tail instead of returning. -/
theorem c1_two_terminal_events :
    runEventsOf ⟨.startOk, .exitStatus true 1, false⟩ =
      [.runRequested, .runStarted, .runFail, .runSuccess] ∧
    (runEventsOf ⟨.startOk, .exitStatus true 1, false⟩).countP
      (fun k => isTerminalKind k) = 2 := by
  decide

/-- Claim C2 (code evidence): on a wait failure that is not a non-zero exit,
Spinner.Run does push RunWaitError, but the value it returns is the
typed-nil result of the failed assertion err.(*exec.ExitError) — the
original wait error is dropped, whichever wait error it was. -/
theorem c2_wait_error_returns_typed_nil :
    (∀ eid, runRetOf ⟨.startOk, .waitFailed eid, false⟩ =
      some RunReturn.typedNilExitErr) ∧
    runEventsOf ⟨.startOk, .waitFailed 7, false⟩ =
      [.runRequested, .runStarted, .runWaitError] := by
  exact ⟨fun eid => rfl, by decide⟩

/-- Claim C3 (code evidence): RunSuccess is pushed even though the process
exited with status 1 and no timeout occurred, and Run returns nil, because
the non-zero-exit branch does not return after pushing RunFail. -/
theorem c3_run_success_after_nonzero_exit :
    EventKind.runSuccess ∈ runEventsOf ⟨.startOk, .exitStatus true 1, false⟩ ∧
    runRetOf ⟨.startOk, .exitStatus true 1, false⟩ = none := by
  decide

/-- Claim C4: whenever the deadline has fired by the time of the ctx.Err()
check and the wait did not itself fail with a non-exit error, Spinner.Run
pushes RunTimeout as its last event, returns the deadline-exceeded error,
and does not push RunSuccess — even when the observed exit status was 0. -/
theorem c4_timeout_takes_precedence (w : WaitOutcome)
    (h : w.isWaitFailed = false) :
    EventKind.runTimeout ∈ runEventsOf ⟨.startOk, w, true⟩ ∧
    (runEventsOf ⟨.startOk, w, true⟩).getLast? = some EventKind.runTimeout ∧
    runRetOf ⟨.startOk, w, true⟩ = some RunReturn.deadlineExceededErr ∧
    EventKind.runSuccess ∉ runEventsOf ⟨.startOk, w, true⟩ := by
  cases w with
  | waitFailed eid => simp [WaitOutcome.isWaitFailed] at h
  | waitOk => decide
  | exitStatus b st =>
    cases b <;>
      simp [runEventsOf, runRetOf, spinnerRun, deadlineCheckTail]

/-- Witness for claim C4, at a status-0 exit observed after the timeout. -/
theorem c4_timeout_takes_precedence_witness :
    EventKind.runTimeout ∈ runEventsOf ⟨.startOk, .exitStatus true 0, true⟩ ∧
    (runEventsOf ⟨.startOk, .exitStatus true 0, true⟩).getLast? =
      some EventKind.runTimeout ∧
    runRetOf ⟨.startOk, .exitStatus true 0, true⟩ =
      some RunReturn.deadlineExceededErr ∧
    EventKind.runSuccess ∉ runEventsOf ⟨.startOk, .exitStatus true 0, true⟩ :=
  c4_timeout_takes_precedence (.exitStatus true 0) (by decide)

/-- Claim C5 (code evidence): Workflow.Run does not await dispatched tasks
on every return path.  With two steps dispatched and the stop flag then
observed, the loop executes return nil from inside the loop without reaching
joiner.Wait(); likewise the Acquire-error path returns the error without
waiting. -/
theorem c5_stop_path_skips_join :
    workflowRunLoop
      [.dispatched .nonZeroExit, .dispatched .success, .stopSeen] 0 =
      some ⟨.stoppedExit, 2, false, none⟩ ∧
    workflowRunLoop [.dispatched .success, .acqCancel] 0 =
      some ⟨.acqErrorExit, 1, false, some .acquireCancel⟩ := by
  decide

/-- Claim C6: in every state reachable during a Workflow.Run with
concurrency limit N, at most N steps are in Running status and at most N
admission units are held (the count is a natural number, so it is never
negative, and a unit is only released by a task that holds one). -/
theorem c6_concurrency_bound (N : Nat) (ts : List TaskPhase)
    (h : GateReach N ts) :
    runningSteps ts ≤ N ∧ unitsHeld ts ≤ N :=
  ⟨le_trans (runningSteps_le_unitsHeld ts) (gateReach_unitsHeld_le h),
    gateReach_unitsHeld_le h⟩

/-- Witness for claim C6: with capacity 2, the state with one running task
is reachable (admit, then start), and the bounds hold there. -/
theorem c6_concurrency_bound_witness :
    runningSteps [TaskPhase.runningP] ≤ 2 ∧
    unitsHeld [TaskPhase.runningP] ≤ 2 :=
  c6_concurrency_bound 2 [TaskPhase.runningP]
    (GateReach.next
      (GateReach.next GateReach.start (GateStep.enter [] (by decide)))
      (GateStep.startRun [] []))

/-- Claim C7: if some step's depends_on names a step absent from the
document, the validation loop of LoadWorkflowFromBytes fails with an error
message that contains both the dependent step's name and the missing
reference; if every depends_on entry resolves, the validation succeeds. -/
theorem c7_depends_on_validation :
    (∀ (steps : List StepDoc) (s : StepDoc) (d : String),
      s ∈ steps → d ∈ s.dependsOn → findStepByName steps d = none →
      ∃ s2 d2, s2 ∈ steps ∧ d2 ∈ s2.dependsOn ∧
        findStepByName steps d2 = none ∧
        resolveAllDeps steps steps = .error (depErrorMsg s2.name d2) ∧
        ∃ pre mid post,
          depErrorMsg s2.name d2 = pre ++ s2.name ++ mid ++ d2 ++ post) ∧
    (∀ steps : List StepDoc,
      (∀ s ∈ steps, ∀ d ∈ s.dependsOn,
        (findStepByName steps d).isSome = true) →
      ∃ r, resolveAllDeps steps steps = .ok r) := by
  constructor
  · intro steps s d hs hd hf
    obtain ⟨s2, d2, hs2, hd2, hfd2, herr⟩ :=
      resolveAllDeps_error_of steps steps s d hs hd hf
    exact ⟨s2, d2, hs2, hd2, hfd2, herr,
      "invalid step name in runs_after for step ", " (", ")", rfl⟩
  · intro steps h
    exact resolveAllDeps_ok_of steps steps h

/-- Witness for claim C7: a document whose only step depends on the absent
step ghost fails validation with the message naming both, and a two-step
document whose reference resolves validates. -/
theorem c7_depends_on_validation_witness :
    (∃ s2 d2, s2 ∈ [StepDoc.mk "alpha" ["ghost"]] ∧ d2 ∈ s2.dependsOn ∧
      findStepByName [StepDoc.mk "alpha" ["ghost"]] d2 = none ∧
      resolveAllDeps [StepDoc.mk "alpha" ["ghost"]]
        [StepDoc.mk "alpha" ["ghost"]] = .error (depErrorMsg s2.name d2) ∧
      ∃ pre mid post,
        depErrorMsg s2.name d2 = pre ++ s2.name ++ mid ++ d2 ++ post) ∧
    (∃ r, resolveAllDeps [StepDoc.mk "alpha" [], StepDoc.mk "beta" ["alpha"]]
      [StepDoc.mk "alpha" [], StepDoc.mk "beta" ["alpha"]] = .ok r) :=
  ⟨c7_depends_on_validation.1 [StepDoc.mk "alpha" ["ghost"]]
      (StepDoc.mk "alpha" ["ghost"]) "ghost" (by simp) (by simp) (by decide),
    c7_depends_on_validation.2
      [StepDoc.mk "alpha" [], StepDoc.mk "beta" ["alpha"]] (by decide)⟩

/-- Claim C8: every error value Workflow.Run returns is the
admission/cancellation error from gatekeeper.Acquire; the stop-flag exit
returns nil; and a dispatched step that fails with a non-zero exit or a
timeout raises the stop flag while its task propagates no error into Run's
return value. -/
theorem c8_step_failure_not_returned :
    (∀ (t : List LoopObs) (n : Nat) (r : LoopResult),
      workflowRunLoop t n = some r →
      r.retErr = none ∨ r.retErr = some WorkflowErr.acquireCancel) ∧
    (∀ (t : List LoopObs) (n : Nat) (r : LoopResult),
      workflowRunLoop t n = some r →
      r.exitKind = RunExitKind.stoppedExit → r.retErr = none) ∧
    (stepTask StepOutcome.nonZeroExit).raisedStop = true ∧
    (stepTask StepOutcome.timeoutOut).raisedStop = true ∧
    (∀ o, (stepTask o).propagatedErr = none) := by
  refine ⟨?_, ?_, rfl, rfl, fun o => rfl⟩
  · intro t n r h
    exact (workflowRunLoop_ret t n r h).1
  · intro t n r h hk
    exact (workflowRunLoop_ret t n r h).2 hk

/-- Witness for claim C8: a run that dispatches one failing step and then
sees the stop flag returns without an error value. -/
theorem c8_step_failure_not_returned_witness :
    ((⟨RunExitKind.stoppedExit, 1, false, none⟩ : LoopResult).retErr = none ∨
      (⟨RunExitKind.stoppedExit, 1, false, none⟩ : LoopResult).retErr =
        some WorkflowErr.acquireCancel) ∧
    (⟨RunExitKind.stoppedExit, 1, false, none⟩ : LoopResult).retErr = none :=
  ⟨c8_step_failure_not_returned.1
      [.dispatched .nonZeroExit, .stopSeen] 0 _ rfl,
    c8_step_failure_not_returned.2.1
      [.dispatched .nonZeroExit, .stopSeen] 0 _ rfl rfl⟩

/-- Claim C9 counterexample: a run of two spaces does not yield the same
executable and argument list as a single space (an empty argument appears),
and a tab is not a separator at all (the whole string becomes the
executable). -/
theorem c9_whitespace_counterexample :
    newSpinner true true ['a', ' ', ' ', 'b'] =
      .ok ⟨['a'], [[], ['b']]⟩ ∧
    newSpinner true true ['a', ' ', 'b'] = .ok ⟨['a'], [['b']]⟩ ∧
    ([[], ['b']] : List (List Char)) ≠ [['b']] ∧
    newSpinner true true ['a', '\t', 'b'] =
      .ok ⟨['a', '\t', 'b'], []⟩ := by
  decide

/-- Claim C9 (amended): NewSpinner splits the command on each single space
character: the executable is the first element of that split and the
arguments are the remaining elements in order; no token contains a space,
and rejoining the tokens with single spaces restores the command unchanged
(no expansion, quoting or substitution). -/
theorem c9_single_space_split (command : List Char) :
    ∃ exe args, newSpinner true true command = NewSpinnerResult.ok ⟨exe, args⟩ ∧
      goSplitSpace command = exe :: args ∧
      joinSpace (exe :: args) = command ∧
      (∀ t ∈ exe :: args, ' ' ∉ t) := by
  cases hp : goSplitSpace command with
  | nil => exact absurd hp (goSplitSpace_ne_nil command)
  | cons exe args =>
    refine ⟨exe, args, ?_, rfl, ?_, ?_⟩
    · simp [newSpinner, hp]
    · rw [← hp]; exact joinSpace_goSplitSpace command
    · rw [← hp]; exact goSplitSpace_no_space command

/-- Claim C10: with both options present, NewSpinner never reaches the
"bad command" branch — the split always yields at least one token — and the
empty command constructs a Spinner whose executable is the empty string. -/
theorem c10_new_spinner_never_errors (command : List Char) :
    (∃ s, newSpinner true true command = NewSpinnerResult.ok s) ∧
    newSpinner true true [] = NewSpinnerResult.ok ⟨[], []⟩ := by
  refine ⟨?_, by decide⟩
  cases hp : goSplitSpace command with
  | nil => exact absurd hp (goSplitSpace_ne_nil command)
  | cons exe args => exact ⟨⟨exe, args⟩, by simp [newSpinner, hp]⟩
